import Mathlib

/-!
Shallow embedding of the chess rules engine and AI search of
`src/main.ts` (the final source variant, lines 2173-3693).

The board is an 8x8 grid of optional pieces; rows 0-7 are ranks 8-1
(Black at the top), columns 0-7 are files a-h.  The source indexes the
grid with JavaScript numbers; the embedding uses `Int` coordinates and a
total cell read `getCell` that yields `none` outside the board, matching
the guarded accesses of the source.  Scores use exact rational
arithmetic in place of JavaScript floats: every score is held in
twentieths of a pawn (a scaling by 20), which keeps each fractional
constant of the source (piece-square bonuses of table/10, the 0.5 bishop
pair bonus, the 0.75 check bonus) an exact integer and preserves every
comparison the engine makes.  Sprites and all other rendering state are
dropped; `hasMoved`, piece type and color are kept.
-/

inductive PieceType where
  | Pawn | Rook | Knight | Bishop | Queen | King
  deriving DecidableEq, Fintype

inductive PieceColor where
  | White | Black
  deriving DecidableEq, Fintype

/-- Piece values from `class Piece`: `type`, `color`, `hasMoved`
(the `sprite` field is rendering-only and dropped). -/
structure Piece where
  type : PieceType
  color : PieceColor
  hasMoved : Bool
  deriving DecidableEq, Fintype

open PieceType PieceColor

def BOARD_SIZE : Int := 8

/-- The 8x8 board: `board[row][col]` holds at most one piece. -/
def Board : Type := Fin 8 → Fin 8 → Option Piece

instance : DecidableEq Board := by
  unfold Board
  infer_instance

/-- Total read of `b[row][col]`; out-of-board coordinates read as empty,
matching the bounds-guarded accesses of the source. -/
def getCell (b : Board) (r c : Int) : Option Piece :=
  if h : 0 ≤ r ∧ r < 8 ∧ 0 ≤ c ∧ c < 8 then
    b ⟨r.toNat, by omega⟩ ⟨c.toNat, by omega⟩
  else none

/-- Write of `b[row][col] = v` (out-of-board writes are dropped, matching
the fact that every write in the modelled code is in range). -/
def setCell (b : Board) (r c : Int) (v : Option Piece) : Board :=
  fun r' c' => if ((r' : Int) = r ∧ (c' : Int) = c) then v else b r' c'

def oppositeColor (c : PieceColor) : PieceColor :=
  match c with
  | White => Black
  | Black => White

/-- `pieceValue`: Pawn 1, Knight 3, Bishop 3, Rook 5, Queen 9, King 20,
in twentieths of a pawn. -/
def pieceValue (piece : Piece) : Int :=
  match piece.type with
  | Pawn => 20
  | Knight => 60
  | Bishop => 60
  | Rook => 100
  | Queen => 180
  | King => 400

/-- `cloneBoard`: a deep copy of the piece values; in the value semantics
of the embedding this is the identity. -/
def cloneBoard (b : Board) : Board := b

/-- The pawn's forward direction: -1 for White (up the rows), 1 for Black. -/
def pawnDir (c : PieceColor) : Int :=
  match c with
  | White => -1
  | Black => 1

/-- `isLegalRookMove`: orthogonal slide with an empty path.  The source
walks cell by cell from the origin toward the destination; the embedding
enumerates the same strictly-intermediate cells by their step index. -/
def isLegalRookMove (b : Board) (fromRow fromCol toRow toCol : Int) : Bool :=
  if fromRow ≠ toRow ∧ fromCol ≠ toCol then false
  else if fromRow = toRow then
    let step : Int := if fromCol < toCol then 1 else -1
    (List.range ((toCol - fromCol) * step - 1).toNat).all fun i =>
      (getCell b fromRow (fromCol + (i + 1) * step)).isNone
  else
    let step : Int := if fromRow < toRow then 1 else -1
    (List.range ((toRow - fromRow) * step - 1).toNat).all fun i =>
      (getCell b (fromRow + (i + 1) * step) fromCol).isNone

def isLegalKnightMove (fromRow fromCol toRow toCol : Int) : Bool :=
  let dr := (toRow - fromRow).natAbs
  let dc := (toCol - fromCol).natAbs
  (dr = 2 ∧ dc = 1) ∨ (dr = 1 ∧ dc = 2)

/-- `isLegalBishopMove`: diagonal slide with an empty path.  A
zero-length "diagonal" is false: the source loop then walks off the
board and fails its bounds check. -/
def isLegalBishopMove (b : Board) (fromRow fromCol toRow toCol : Int) : Bool :=
  if (toRow - fromRow).natAbs ≠ (toCol - fromCol).natAbs then false
  else if fromRow = toRow then false
  else
    let stepRow : Int := if fromRow < toRow then 1 else -1
    let stepCol : Int := if fromCol < toCol then 1 else -1
    (List.range ((toRow - fromRow) * stepRow - 1).toNat).all fun i =>
      (getCell b (fromRow + (i + 1) * stepRow) (fromCol + (i + 1) * stepCol)).isNone

def isLegalQueenMove (b : Board) (fromRow fromCol toRow toCol : Int) : Bool :=
  isLegalRookMove b fromRow fromCol toRow toCol ||
  isLegalBishopMove b fromRow fromCol toRow toCol

def isLegalKingMove (fromRow fromCol toRow toCol : Int) : Bool :=
  (toRow - fromRow).natAbs ≤ 1 ∧ (toCol - fromCol).natAbs ≤ 1

/-- `canPieceAttack`: the basic movement pattern used for attack
detection (the source temporarily swaps the global board to `b`; the
embedding passes `b` explicitly). -/
def canPieceAttack (b : Board) (fromRow fromCol toRow toCol : Int) (piece : Piece) : Bool :=
  match piece.type with
  | Pawn => (toCol - fromCol).natAbs = 1 ∧ toRow = fromRow + pawnDir piece.color
  | Rook => isLegalRookMove b fromRow fromCol toRow toCol
  | Knight => isLegalKnightMove fromRow fromCol toRow toCol
  | Bishop => isLegalBishopMove b fromRow fromCol toRow toCol
  | Queen => isLegalQueenMove b fromRow fromCol toRow toCol
  | King => (toRow - fromRow).natAbs ≤ 1 ∧ (toCol - fromCol).natAbs ≤ 1

/-- `isSquareAttacked(row, col, byColor, b)`: some piece of `byColor`
reaches (row, col) under basic movement; pawns use their capture
pattern. -/
def isSquareAttacked (b : Board) (row col : Int) (byColor : PieceColor) : Bool :=
  (List.finRange 8).any fun r =>
    (List.finRange 8).any fun c =>
      match b r c with
      | some p =>
          decide (p.color = byColor) &&
          (if p.type = Pawn then
            decide (row = (r : Int) + pawnDir p.color ∧
              (col = (c : Int) - 1 ∨ col = (c : Int) + 1))
          else canPieceAttack b r c row col p)
      | none => false

/-- `findKing(color, b)`: row-major scan for the first king of `color`. -/
def findKing (color : PieceColor) (b : Board) : Option (Int × Int) :=
  (List.finRange 8).findSome? fun r =>
    (List.finRange 8).findSome? fun c =>
      match b r c with
      | some p =>
          if p.color = color ∧ p.type = King then some ((r : Int), (c : Int)) else none
      | none => none

/-- `isKingInCheck(color, b)`: a missing king reads as in check. -/
def isKingInCheck (color : PieceColor) (b : Board) : Bool :=
  match findKing color b with
  | none => true
  | some kingPos => isSquareAttacked b kingPos.1 kingPos.2 (oppositeColor color)

/-- `isLegalPawnMove`. -/
def isLegalPawnMove (b : Board) (fromRow fromCol toRow toCol : Int) (piece : Piece) : Bool :=
  let direction := pawnDir piece.color
  if toCol = fromCol ∧ toRow = fromRow + direction ∧ (getCell b toRow toCol).isNone then
    true
  else if toCol = fromCol ∧ ¬piece.hasMoved ∧ toRow = fromRow + 2 * direction ∧
      (getCell b (fromRow + direction) fromCol).isNone ∧ (getCell b toRow toCol).isNone then
    true
  else if (toCol - fromCol).natAbs = 1 ∧ toRow = fromRow + direction then
    match getCell b toRow toCol with
    | some dest => decide (dest.color ≠ piece.color)
    | none => false
  else false

/-- List of the `Int`s from `a` to `b` inclusive (empty when `b < a`);
used for the castling emptiness loops of the source. -/
def intsFromTo (a b : Int) : List Int :=
  (List.range (b + 1 - a).toNat).map fun i => a + (i : Int)

/-- The castling arm of `isLegalMoveBasic`'s King case: not currently in
check, transit and destination squares unattacked, the source's
emptiness loop over columns, and an unmoved piece on the corner square. -/
def castleCheck (b : Board) (color : PieceColor) (fromRow fromCol toRow toCol : Int) : Bool :=
  if isKingInCheck color b then false
  else
    let enemyColor := oppositeColor color
    let step : Int := if fromCol < toCol then 1 else -1
    if isSquareAttacked b fromRow (fromCol + step) enemyColor then false
    else if isSquareAttacked b toRow toCol enemyColor then false
    else if fromCol < toCol then
      ((intsFromTo (fromCol + 1) toCol).all fun c => (getCell b fromRow c).isNone) &&
      (match getCell b fromRow (BOARD_SIZE - 1) with
       | some rook => !rook.hasMoved
       | none => false)
    else
      ((intsFromTo toCol (fromCol - 1)).all fun c => (getCell b fromRow c).isNone) &&
      (match getCell b fromRow 0 with
       | some rook => !rook.hasMoved
       | none => false)

/-- `isLegalMoveBasic`: the en-passant pre-check, then the per-piece
switch.  `ep` is the global `enPassantTarget` passed explicitly. -/
def isLegalMoveBasic (b : Board) (ep : Option (Int × Int))
    (fromRow fromCol toRow toCol : Int) (piece : Piece) : Bool :=
  if piece.type = Pawn ∧ (toCol - fromCol).natAbs = 1 ∧
      toRow = fromRow + pawnDir piece.color ∧
      (getCell b toRow toCol).isNone ∧ ep = some (toRow, toCol) then
    true
  else
    match piece.type with
    | Pawn => isLegalPawnMove b fromRow fromCol toRow toCol piece
    | Rook => isLegalRookMove b fromRow fromCol toRow toCol
    | Knight => isLegalKnightMove fromRow fromCol toRow toCol
    | Bishop => isLegalBishopMove b fromRow fromCol toRow toCol
    | Queen => isLegalQueenMove b fromRow fromCol toRow toCol
    | King =>
      if (toCol - fromCol).natAbs = 2 ∧ toRow = fromRow then
        castleCheck b piece.color fromRow fromCol toRow toCol
      else isLegalKingMove fromRow fromCol toRow toCol

/-- The simulated board built inside `isLegalMoveSimulated`: clone the
board, remove the en-passant victim for a pawn's diagonal move into an
empty square (otherwise clear the destination), move the piece, and for
a two-column king move relocate the corner rook beside the king. -/
def simBoardOf (b : Board) (fromRow fromCol toRow toCol : Int) : Board :=
  match getCell b fromRow fromCol with
  | none => b
  | some simPiece =>
    let b0 := cloneBoard b
    let b1 :=
      if simPiece.type = Pawn ∧ (toCol - fromCol).natAbs = 1 ∧
          (getCell b0 toRow toCol).isNone then
        setCell b0 fromRow toCol none
      else setCell b0 toRow toCol none
    let b2 := setCell (setCell b1 toRow toCol (some simPiece)) fromRow fromCol none
    if simPiece.type = King ∧ (toCol - fromCol).natAbs = 2 then
      if fromCol < toCol then
        setCell (setCell b2 fromRow (fromCol + 1) (getCell b2 fromRow (BOARD_SIZE - 1)))
          fromRow (BOARD_SIZE - 1) none
      else
        setCell (setCell b2 fromRow (fromCol - 1) (getCell b2 fromRow 0)) fromRow 0 none
    else b2

/-- `isLegalMoveSimulated`: basic legality plus the simulated-move
self-check test. -/
def isLegalMoveSimulated (b : Board) (ep : Option (Int × Int))
    (fromRow fromCol toRow toCol : Int) : Bool :=
  match getCell b fromRow fromCol with
  | none => false
  | some piece =>
    if !(isLegalMoveBasic b ep fromRow fromCol toRow toCol piece) then false
    else !(isKingInCheck piece.color (simBoardOf b fromRow fromCol toRow toCol))

/-- `isLegalMove`: source piece present, in-board destination, no
self-capture, then the simulated test. -/
def isLegalMove (b : Board) (ep : Option (Int × Int))
    (fromRow fromCol toRow toCol : Int) : Bool :=
  match getCell b fromRow fromCol with
  | none => false
  | some piece =>
    if toRow < 0 ∨ BOARD_SIZE ≤ toRow ∨ toCol < 0 ∨ BOARD_SIZE ≤ toCol then false
    else
      match getCell b toRow toCol with
      | some dest => if dest.color = piece.color then false
                     else isLegalMoveSimulated b ep fromRow fromCol toRow toCol
      | none => isLegalMoveSimulated b ep fromRow fromCol toRow toCol

/-- The captured-piece snapshot of a `MoveRecord`. -/
structure CapturedInfo where
  type : PieceType
  color : PieceColor
  hasMoved : Bool
  row : Int
  col : Int
  deriving DecidableEq

/-- The castling snapshot of a `MoveRecord` (the `rook` field snapshots
the value of the piece object the source holds by reference). -/
structure CastlingInfo where
  rookFrom : Int
  rookTo : Int
  rook : Piece
  oldHasMoved : Bool
  deriving DecidableEq

/-- `interface MoveRecord`. -/
structure MoveRecord where
  fromRow : Int
  fromCol : Int
  toRow : Int
  toCol : Int
  oldType : PieceType
  oldHasMoved : Bool
  captured : Option CapturedInfo
  castling : Option CastlingInfo
  oldEnPassantTarget : Option (Int × Int)
  deriving DecidableEq

/-- The globals the rules engine mutates during play: `board`,
`enPassantTarget`, `currentTurn`, `whiteScore`, `blackScore`,
`moveHistory` (UI-only globals are dropped). -/
structure GameState where
  board : Board
  enPassantTarget : Option (Int × Int)
  currentTurn : PieceColor
  whiteScore : Int
  blackScore : Int
  moveHistory : List MoveRecord

/-- `movePiece(fromRow, fromCol, toRow, toCol)`: applies a move to the
game state, with en-passant capture removal, ordinary capture and score
update, castling rook relocation, the move itself with `hasMoved := true`,
queen auto-promotion, en-passant-target bookkeeping, and the pushed
`MoveRecord`. -/
def movePiece (s : GameState) (fromRow fromCol toRow toCol : Int) : GameState :=
  match getCell s.board fromRow fromCol with
  | none => s
  | some piece =>
    let epCapture : Option CapturedInfo :=
      if piece.type = Pawn ∧ (toCol - fromCol).natAbs = 1 ∧
          (getCell s.board toRow toCol).isNone ∧
          s.enPassantTarget = some (toRow, toCol) then
        match getCell s.board fromRow toCol with
        | some cap => some ⟨cap.type, cap.color, cap.hasMoved, fromRow, toCol⟩
        | none => none
      else none
    let b1 := if epCapture.isSome then setCell s.board fromRow toCol none else s.board
    let destPiece := getCell b1 toRow toCol
    let normalCapture : Option CapturedInfo :=
      match destPiece with
      | some d => some ⟨d.type, d.color, d.hasMoved, toRow, toCol⟩
      | none => none
    let wScore := match destPiece with
      | some d => if piece.color = White then s.whiteScore + pieceValue d else s.whiteScore
      | none => s.whiteScore
    let bScore := match destPiece with
      | some d => if piece.color = White then s.blackScore else s.blackScore + pieceValue d
      | none => s.blackScore
    let captured := if epCapture.isSome then epCapture else normalCapture
    let castRes : Option CastlingInfo × Board :=
      if piece.type = King ∧ (toCol - fromCol).natAbs = 2 then
        if fromCol < toCol then
          match getCell b1 fromRow (BOARD_SIZE - 1) with
          | some rook =>
              (some ⟨BOARD_SIZE - 1, fromCol + 1, rook, rook.hasMoved⟩,
               setCell (setCell b1 fromRow (BOARD_SIZE - 1) none) fromRow (fromCol + 1) (some rook))
          | none => (none, b1)
        else
          match getCell b1 fromRow 0 with
          | some rook =>
              (some ⟨0, fromCol - 1, rook, rook.hasMoved⟩,
               setCell (setCell b1 fromRow 0 none) fromRow (fromCol - 1) (some rook))
          | none => (none, b1)
      else (none, b1)
    let record : MoveRecord :=
      { fromRow := fromRow, fromCol := fromCol, toRow := toRow, toCol := toCol,
        oldType := piece.type, oldHasMoved := piece.hasMoved,
        captured := captured, castling := castRes.1,
        oldEnPassantTarget := s.enPassantTarget }
    let moved : Piece := { piece with hasMoved := true }
    let b3 := setCell (setCell castRes.2 toRow toCol (some moved)) fromRow fromCol none
    let promo := piece.type = Pawn ∧
      ((piece.color = White ∧ toRow = 0) ∨ (piece.color = Black ∧ toRow = BOARD_SIZE - 1))
    let b4 := match getCell b3 toRow toCol with
      | some q => if promo then setCell b3 toRow toCol (some { q with type := Queen }) else b3
      | none => b3
    let typeAfterPromo := if promo then Queen else piece.type
    let ep' := if typeAfterPromo = Pawn ∧ (toRow - fromRow).natAbs = 2 then
        some (fromRow + (toRow - fromRow) / 2, fromCol)
      else none
    { board := b4, enPassantTarget := ep', currentTurn := s.currentTurn,
      whiteScore := wScore, blackScore := bScore,
      moveHistory := s.moveHistory ++ [record] }

/-- The turn flip the caller performs right after a successful
`movePiece` (the `currentTurn` update in the A-button handler). -/
def flipTurnAfterMove (s : GameState) : GameState :=
  { s with currentTurn := oppositeColor s.currentTurn }

/-- `undoLastMove()`: pops the most recent record and reverses it; with
an empty history the state is unchanged. -/
def undoLastMove (s : GameState) : GameState :=
  match s.moveHistory.getLast? with
  | none => s
  | some mv =>
    let hist := s.moveHistory.dropLast
    let b1 := match getCell s.board mv.toRow mv.toCol with
      | some movedPiece =>
          setCell (setCell s.board mv.fromRow mv.fromCol
            (some { movedPiece with type := mv.oldType, hasMoved := mv.oldHasMoved }))
            mv.toRow mv.toCol none
      | none => s.board
    let capRes : Board × Int × Int := match mv.captured with
      | some cap =>
          let restored : Piece := ⟨cap.type, cap.color, cap.hasMoved⟩
          (setCell b1 cap.row cap.col (some restored),
           if cap.color = White then s.whiteScore else s.whiteScore - pieceValue restored,
           if cap.color = White then s.blackScore - pieceValue restored else s.blackScore)
      | none => (b1, s.whiteScore, s.blackScore)
    let b3 := match mv.castling with
      | some cast =>
          setCell (setCell capRes.1 mv.fromRow cast.rookFrom
            (some { cast.rook with hasMoved := cast.oldHasMoved }))
            mv.fromRow cast.rookTo none
      | none => capRes.1
    { board := b3, enPassantTarget := mv.oldEnPassantTarget,
      currentTurn := oppositeColor s.currentTurn,
      whiteScore := capRes.2.1, blackScore := capRes.2.2,
      moveHistory := hist }

/-- Piece-square table for pawns. -/
def pawnTable : List (List Int) :=
  [[ 0,  0,  0,  0,  0,  0,  0,  0],
   [ 5,  5,  5,  5,  5,  5,  5,  5],
   [ 1,  1,  2,  3,  3,  2,  1,  1],
   [ 0,  0,  0, 10, 10,  0,  0,  0],
   [ 0,  0,  0, -5, -5,  0,  0,  0],
   [ 1, -1, -2,  0,  0, -2, -1,  1],
   [ 1,  2,  2, -2, -2,  2,  2,  1],
   [ 0,  0,  0,  0,  0,  0,  0,  0]]

/-- Piece-square table for knights. -/
def knightTable : List (List Int) :=
  [[-5, -4, -3, -3, -3, -3, -4, -5],
   [-4, -2,  0,  0,  0,  0, -2, -4],
   [-3,  0,  1,  1,  1,  1,  0, -3],
   [-3,  0,  1,  2,  2,  1,  0, -3],
   [-3,  0,  1,  2,  2,  1,  0, -3],
   [-3,  0,  1,  1,  1,  1,  0, -3],
   [-4, -2,  0,  0,  0,  0, -2, -4],
   [-5, -4, -3, -3, -3, -3, -4, -5]]

/-- Piece-square table for bishops. -/
def bishopTable : List (List Int) :=
  [[-2, -1, -1, -1, -1, -1, -1, -2],
   [-1,  0,  0,  0,  0,  0,  0, -1],
   [-1,  0,  1,  1,  1,  1,  0, -1],
   [-1,  0,  1,  2,  2,  1,  0, -1],
   [-1,  0,  1,  2,  2,  1,  0, -1],
   [-1,  0,  1,  1,  1,  1,  0, -1],
   [-1,  0,  0,  0,  0,  0,  0, -1],
   [-2, -1, -1, -1, -1, -1, -1, -2]]

/-- Piece-square table for rooks. -/
def rookTable : List (List Int) :=
  [[ 0,  0,  0,  0,  0,  0,  0,  0],
   [ 0,  0,  0,  0,  0,  0,  0,  0],
   [ 0,  0,  0,  0,  0,  0,  0,  0],
   [ 0,  0,  0,  0,  0,  0,  0,  0],
   [ 0,  0,  0,  0,  0,  0,  0,  0],
   [ 0,  0,  0,  0,  0,  0,  0,  0],
   [ 5,  5,  5,  5,  5,  5,  5,  5],
   [ 0,  0,  0, 10, 10,  0,  0,  0]]

/-- Piece-square table for queens. -/
def queenTable : List (List Int) :=
  [[-2, -1, -1,  0,  0, -1, -1, -2],
   [-1,  0,  0,  0,  0,  0,  0, -1],
   [-1,  0,  1,  1,  1,  1,  0, -1],
   [ 0,  0,  1,  1,  1,  1,  0,  0],
   [ 0,  0,  1,  1,  1,  1,  0,  0],
   [-1,  0,  1,  1,  1,  1,  0, -1],
   [-1,  0,  0,  0,  0,  0,  0, -1],
   [-2, -1, -1,  0,  0, -1, -1, -2]]

/-- Piece-square table for kings. -/
def kingTable : List (List Int) :=
  [[-3, -4, -4, -5, -5, -4, -4, -3],
   [-3, -4, -4, -5, -5, -4, -4, -3],
   [-3, -4, -4, -5, -5, -4, -4, -3],
   [-3, -4, -4, -5, -5, -4, -4, -3],
   [-2, -3, -3, -4, -4, -3, -3, -2],
   [-1, -2, -2, -2, -2, -2, -2, -1],
   [ 2,  2,  0,  0,  0,  0,  2,  2],
   [ 2,  3,  1,  0,  0,  1,  3,  2]]

/-- The table used for a given piece type. -/
def tableOf (t : PieceType) : List (List Int) :=
  match t with
  | Pawn => pawnTable
  | Knight => knightTable
  | Bishop => bishopTable
  | Rook => rookTable
  | Queen => queenTable
  | King => kingTable

/-- Entry lookup in a piece-square table. -/
def tableAt (t : PieceType) (r c : Fin 8) : Int :=
  ((tableOf t).getD r [] ).getD c 0

/-- `getPieceSquareBonus(piece, row, col)`: Black reads the table
directly, White flips both indices. -/
def getPieceSquareBonus (piece : Piece) (row col : Fin 8) : Int :=
  let tableRow := if piece.color = Black then row else Fin.rev row
  let tableCol := if piece.color = Black then col else Fin.rev col
  tableAt piece.type tableRow tableCol

/-- One cell's contribution to the material-and-position loop of
`staticEvaluation`: positive for Black, negative for White.  The
source's positional term is `bonus / 10`, which is `2 * bonus`
twentieths. -/
def cellScore (b : Board) (r c : Fin 8) : Int :=
  match b r c with
  | some piece =>
      let base := pieceValue piece
      let posBonus := 2 * getPieceSquareBonus piece r c
      if piece.color = Black then base + posBonus else -(base + posBonus)
  | none => 0

/-- Number of bishops of `color`, as counted by `staticEvaluation`. -/
def bishopCount (b : Board) (color : PieceColor) : ℕ :=
  ∑ r : Fin 8, ∑ c : Fin 8,
    match b r c with
    | some piece => if piece.color = color ∧ piece.type = Bishop then 1 else 0
    | none => 0

/-- `staticEvaluation(b)`: material plus piece-square bonuses (positive
for Black), the 0.5 bishop-pair bonus (10 twentieths), and the 0.75
in-check bonuses (15 twentieths). -/
def staticEvaluation (b : Board) : Int :=
  let score : Int := ∑ r : Fin 8, ∑ c : Fin 8, cellScore b r c
  let score := if 2 ≤ bishopCount b White then score - 10 else score
  let score := if 2 ≤ bishopCount b Black then score + 10 else score
  let score := if isKingInCheck White b then score + 15 else score
  let score := if isKingInCheck Black b then score - 15 else score
  score

/-- Color swap on a piece (type and `hasMoved` unchanged). -/
def swapColor (p : Piece) : Piece :=
  { p with color := oppositeColor p.color }

/-- Vertical mirror plus color swap: row r of the new board is row 7-r
of the old one with every piece's color flipped. -/
def mirrorSwap (b : Board) : Board :=
  fun r c => (b (Fin.rev r) c).map swapColor

/-- A (from, to) move as generated by the AI. -/
structure ChessMove where
  fromRow : Int
  fromCol : Int
  toRow : Int
  toCol : Int
  deriving DecidableEq

/-- `simulateMove(b, from, to)`: the search's cheap move application -
put the source piece on the destination and empty the source; nothing
else. -/
def simulateMove (b : Board) (fromRow fromCol toRow toCol : Int) : Board :=
  match getCell b fromRow fromCol with
  | none => b
  | some piece => setCell (setCell b toRow toCol (some piece)) fromRow fromCol none

/-- `getAllLegalMoves(b, color)`: every (from, to) pair of `color` that
passes `isLegalMove`, in row-major scan order.  `ep` is the global
`enPassantTarget`, which the search never mutates. -/
def getAllLegalMoves (b : Board) (ep : Option (Int × Int)) (color : PieceColor) :
    List ChessMove :=
  (List.finRange 8).flatMap fun r =>
    (List.finRange 8).flatMap fun c =>
      match b r c with
      | some piece =>
          if piece.color = color then
            (List.finRange 8).flatMap fun r2 =>
              (List.finRange 8).filterMap fun c2 =>
                if isLegalMove b ep r c r2 c2 then
                  some ⟨(r : Int), (c : Int), (r2 : Int), (c2 : Int)⟩
                else none
          else []
      | none => []

/-- Value of the piece on a move's destination square (0 when empty),
the key of the capture-first move ordering. -/
def captureValue (b : Board) (m : ChessMove) : Int :=
  match getCell b m.toRow m.toCol with
  | some p => pieceValue p
  | none => 0

/-- Stable insertion into a sorted list, the helper of `sortMoves`. -/
def insertMove (le : ChessMove → ChessMove → Bool) (m : ChessMove) :
    List ChessMove → List ChessMove
  | [] => [m]
  | n :: rest => if le m n then m :: n :: rest else n :: insertMove le m rest

/-- Stable insertion sort, the helper of `sortMoves`. -/
def sortMovesBy (le : ChessMove → ChessMove → Bool) : List ChessMove → List ChessMove
  | [] => []
  | m :: rest => insertMove le m (sortMovesBy le rest)

/-- The `moves.sort(...)` comparator of `quiesce` and `minimax`:
descending captured value for the maximizing player, ascending for the
minimizing player (a stable sort models the engine's `Array.sort`). -/
def sortMoves (b : Board) (maximizingPlayer : Bool) (moves : List ChessMove) :
    List ChessMove :=
  sortMovesBy (fun m1 m2 =>
    if maximizingPlayer then decide (captureValue b m2 ≤ captureValue b m1)
    else decide (captureValue b m1 ≤ captureValue b m2)) moves

/-- `quiesce(b, alpha, beta, maximizingPlayer)`: stand-pat clamp, then
capture-only extension.  `fuel` makes the capture recursion structural:
every recursive call is on a board with one piece fewer, so any fuel
above 64 (the cell count) never runs out; callers pass 65. -/
def quiesce (fuel : Nat) (b : Board) (ep : Option (Int × Int))
    (alpha beta : Int) (maximizingPlayer : Bool) : Int :=
  match fuel with
  | 0 => if maximizingPlayer then alpha else beta
  | fuel' + 1 =>
    let standPat := staticEvaluation b
    let alpha := if maximizingPlayer then (if alpha < standPat then standPat else alpha)
                 else alpha
    let beta := if maximizingPlayer then beta
                else (if standPat < beta then standPat else beta)
    if beta ≤ alpha then (if maximizingPlayer then alpha else beta)
    else
      let color := if maximizingPlayer then Black else White
      let moves := (getAllLegalMoves b ep color).filter fun m =>
        (getCell b m.toRow m.toCol).isSome
      let sorted := sortMoves b maximizingPlayer moves
      let final := sorted.foldl (fun (st : Int × Bool) m =>
        if st.2 then st
        else
          let cloneB := simulateMove (cloneBoard b) m.fromRow m.fromCol m.toRow m.toCol
          let score := quiesce fuel' cloneB ep
            (if maximizingPlayer then st.1 else alpha)
            (if maximizingPlayer then beta else st.1) (!maximizingPlayer)
          if maximizingPlayer then
            if st.1 < score then (score, beta ≤ score) else st
          else
            if score < st.1 then (score, score ≤ alpha) else st)
        ((if maximizingPlayer then alpha else beta), false)
      final.1

/-- `minimax(b, depth, alpha, beta, maximizingPlayer)`: alpha-beta
minimax falling through to `quiesce` at depth 0 or with no legal moves;
its alpha/beta window of plus or minus 100000 is 2000000 in twentieths;
returns the score and the best move found. -/
def minimax (b : Board) (ep : Option (Int × Int)) (depth : Nat)
    (alpha beta : Int) (maximizingPlayer : Bool) : Int × Option ChessMove :=
  let color := if maximizingPlayer then Black else White
  let moves := getAllLegalMoves b ep color
  let sorted := sortMoves b maximizingPlayer moves
  match depth with
  | 0 => (quiesce 65 b ep alpha beta maximizingPlayer, none)
  | d + 1 =>
    if moves.isEmpty then (quiesce 65 b ep alpha beta maximizingPlayer, none)
    else if maximizingPlayer then
      let final := sorted.foldl
        (fun (st : Int × Option ChessMove × Int × Bool) m =>
          if st.2.2.2 then st
          else
            let cloneB := simulateMove (cloneBoard b) m.fromRow m.fromCol m.toRow m.toCol
            let evalScore := (minimax cloneB ep d st.2.2.1 beta false).1
            let maxEval := st.1
            let best := st.2.1
            let newBest := if maxEval < evalScore then some m else best
            let newMax := if maxEval < evalScore then evalScore else maxEval
            let newAlpha := max st.2.2.1 evalScore
            (newMax, newBest, newAlpha, beta ≤ newAlpha))
        (-2000000, none, alpha, false)
      (final.1, final.2.1)
    else
      let final := sorted.foldl
        (fun (st : Int × Option ChessMove × Int × Bool) m =>
          if st.2.2.2 then st
          else
            let cloneB := simulateMove (cloneBoard b) m.fromRow m.fromCol m.toRow m.toCol
            let evalScore := (minimax cloneB ep d alpha st.2.2.1 true).1
            let minEval := st.1
            let best := st.2.1
            let newBest := if evalScore < minEval then some m else best
            let newMin := if evalScore < minEval then evalScore else minEval
            let newBeta := min st.2.2.1 evalScore
            (newMin, newBest, newBeta, newBeta ≤ alpha))
        (2000000, none, beta, false)
      (final.1, final.2.1)

/-- The empty board. -/
def emptyBoard : Board := fun _ _ => none

/-- Back-rank piece order used by `initBoard`. -/
def backRank (c : Fin 8) : PieceType :=
  if (c : Int) = 0 ∨ (c : Int) = 7 then Rook
  else if (c : Int) = 1 ∨ (c : Int) = 6 then Knight
  else if (c : Int) = 2 ∨ (c : Int) = 5 then Bishop
  else if (c : Int) = 3 then Queen
  else King

/-- The initial placement of `initBoard()`: Black on rows 0-1, White on
rows 6-7, every piece with `hasMoved = false`. -/
def initBoard : Board := fun r c =>
  if (r : Int) = 0 then some ⟨backRank c, Black, false⟩
  else if (r : Int) = 1 then some ⟨Pawn, Black, false⟩
  else if (r : Int) = 6 then some ⟨Pawn, White, false⟩
  else if (r : Int) = 7 then some ⟨backRank c, White, false⟩
  else none

/-- The freshly initialised game state. -/
def initState : GameState :=
  { board := initBoard, enPassantTarget := none, currentTurn := White,
    whiteScore := 0, blackScore := 0, moveHistory := [] }

/-- A position one ply after Black's d7-d5 double step: White's e5 pawn
may capture en passant on d6 (row 2, col 3). -/
def epBoard : Board :=
  setCell (setCell (setCell (setCell emptyBoard
    7 4 (some ⟨King, White, false⟩))
    0 4 (some ⟨King, Black, false⟩))
    3 4 (some ⟨Pawn, White, true⟩))
    3 3 (some ⟨Pawn, Black, true⟩)

/-- Game state for the en-passant capture scenario. -/
def epState : GameState :=
  { board := epBoard, enPassantTarget := some (2, 3), currentTurn := White,
    whiteScore := 0, blackScore := 0, moveHistory := [] }

/-- A pin: the white bishop on e2 shields the white king on e1 from the
black rook on e8. -/
def pinBoard : Board :=
  setCell (setCell (setCell (setCell emptyBoard
    7 4 (some ⟨King, White, false⟩))
    6 4 (some ⟨Bishop, White, false⟩))
    0 4 (some ⟨Rook, Black, false⟩))
    0 0 (some ⟨King, Black, false⟩)

/-- Queenside castling with the b1 square occupied by a knight: c1 and
d1 empty, rook a1 and king e1 unmoved, nothing attacks the king's path. -/
def qcBoard : Board :=
  setCell (setCell (setCell (setCell emptyBoard
    7 4 (some ⟨King, White, false⟩))
    7 0 (some ⟨Rook, White, false⟩))
    7 1 (some ⟨Knight, White, false⟩))
    0 4 (some ⟨King, Black, false⟩)

/-- A clean kingside castling position: king e1 and rook h1 unmoved,
f1 and g1 empty. -/
def ksBoard : Board :=
  setCell (setCell (setCell emptyBoard
    7 4 (some ⟨King, White, false⟩))
    7 7 (some ⟨Rook, White, false⟩))
    0 4 (some ⟨King, Black, false⟩)

/-- Game state for the kingside castling scenario. -/
def castleState : GameState :=
  { board := ksBoard, enPassantTarget := none, currentTurn := White,
    whiteScore := 0, blackScore := 0, moveHistory := [] }

/-- A black pawn on d3 (row 5) that has never moved, with both squares
ahead of it empty: its double step lands on the promotion rank. -/
def promoBoard : Board :=
  setCell (setCell (setCell emptyBoard
    5 4 (some ⟨Pawn, Black, false⟩))
    0 0 (some ⟨King, Black, false⟩))
    2 7 (some ⟨King, White, false⟩)

/-- Game state for the double-step-onto-promotion-rank scenario. -/
def promoState : GameState :=
  { board := promoBoard, enPassantTarget := none, currentTurn := Black,
    whiteScore := 0, blackScore := 0, moveHistory := [] }

/-- A board with two black kings (a8 and h1): `findKing` picks a8 for
Black but, after mirroring and color-swapping, picks the image of h1
for White, so the in-check bonuses of `staticEvaluation` desynchronise. -/
def twoKingsBoard : Board :=
  setCell (setCell (setCell (setCell emptyBoard
    0 0 (some ⟨King, Black, false⟩))
    7 7 (some ⟨King, Black, false⟩))
    5 7 (some ⟨Rook, White, false⟩))
    3 3 (some ⟨King, White, false⟩)

/-- Black to move with exactly one capture available: the h8 rook can
take the h4 pawn, but that pawn is defended by the white king on g3. -/
def aiBoard : Board :=
  setCell (setCell (setCell (setCell emptyBoard
    0 0 (some ⟨King, Black, false⟩))
    0 7 (some ⟨Rook, Black, false⟩))
    4 7 (some ⟨Pawn, White, false⟩))
    5 6 (some ⟨King, White, false⟩)

/-- The check-relevant part of a piece: its type and color
(`hasMoved` excluded). -/
def pieceShape (p : Piece) : PieceType × PieceColor :=
  (p.type, p.color)

/-- Two boards agree cell by cell on occupancy, piece type and color
(they may differ in `hasMoved` flags). -/
def sameShape (b b' : Board) : Prop :=
  ∀ r c : Fin 8, (b r c).map pieceShape = (b' r c).map pieceShape

set_option maxRecDepth 1000000
set_option maxHeartbeats 1600000

theorem getCell_eq_some_bounds {b : Board} {r c : Int} {p : Piece}
    (h : getCell b r c = some p) : 0 ≤ r ∧ r < 8 ∧ 0 ≤ c ∧ c < 8 := by
  by_contra hb
  unfold getCell at h
  rw [dif_neg hb] at h
  exact Option.noConfusion h

theorem getCell_setCell_ne (b : Board) (r c r' c' : Int) (v : Option Piece)
    (h : ¬(r' = r ∧ c' = c)) : getCell (setCell b r c v) r' c' = getCell b r' c' := by
  unfold getCell setCell
  split
  · rename_i hb
    rw [if_neg]
    intro hc
    obtain ⟨h1, h2⟩ := hc
    simp only [Fin.val_mk] at h1 h2
    apply h
    constructor <;> omega
  · rfl

theorem getCell_setCell_same (b : Board) (r c : Int) (v : Option Piece)
    (hr : 0 ≤ r ∧ r < 8) (hc : 0 ≤ c ∧ c < 8) :
    getCell (setCell b r c v) r c = v := by
  unfold getCell setCell
  rw [dif_pos (by omega)]
  rw [if_pos]
  constructor <;> simp only [Fin.val_mk] <;> omega

/-- C1: the round-trip law fails on en-passant captures.  In `epState`
White's e5 pawn legally captures en passant on d6; `movePiece` records
the captured pawn but adds nothing to `whiteScore` (the score update
sits only in the ordinary-capture branch, whose destination square is
empty here), while `undoLastMove` subtracts the captured pawn's value.
Board, en-passant target, turn and Black's score are restored exactly,
but White's score ends one pawn (20 twentieths) below its prior value. -/
theorem movePiece_undo_enPassant_score_not_restored :
    isLegalMove epState.board epState.enPassantTarget 3 4 2 3 = true ∧
    (undoLastMove (flipTurnAfterMove (movePiece epState 3 4 2 3))).board = epState.board ∧
    (undoLastMove (flipTurnAfterMove (movePiece epState 3 4 2 3))).enPassantTarget =
      epState.enPassantTarget ∧
    (undoLastMove (flipTurnAfterMove (movePiece epState 3 4 2 3))).currentTurn =
      epState.currentTurn ∧
    (undoLastMove (flipTurnAfterMove (movePiece epState 3 4 2 3))).blackScore =
      epState.blackScore ∧
    (undoLastMove (flipTurnAfterMove (movePiece epState 3 4 2 3))).whiteScore ≠
      epState.whiteScore := by
  refine ⟨by decide, by decide, by decide, by decide, by decide, by decide⟩

/-- C3 counterexample: on `qcBoard` the queenside castling move e1-c1
passes `isLegalMoveBasic` although the b1 square, strictly between the
king (column 4) and the a1 rook (column 0), is occupied by a knight:
the source's queenside emptiness loop only inspects columns 2 and 3. -/
theorem castle_basic_passes_with_occupied_bfile :
    getCell qcBoard 7 4 = some ⟨King, White, false⟩ ∧
    getCell qcBoard 7 0 = some ⟨Rook, White, false⟩ ∧
    getCell qcBoard 7 1 = some ⟨Knight, White, false⟩ ∧
    isLegalMoveBasic qcBoard none 7 4 7 2 ⟨King, White, false⟩ = true := by
  refine ⟨by decide, by decide, by decide, by decide⟩

/-- C4 counterexample: in `promoState` the unmoved black pawn on d3
legally double-steps to d1.  The move is a pawn's two-square advance,
yet the en-passant target afterwards is `none` rather than the skipped
square (6, 4): `movePiece` promotes the pawn to a queen first and then
tests the already-promoted piece's type. -/
theorem pawn_double_step_to_promotion_clears_ep :
    getCell promoState.board 5 4 = some ⟨Pawn, Black, false⟩ ∧
    isLegalMove promoState.board promoState.enPassantTarget 5 4 7 4 = true ∧
    (movePiece promoState 5 4 7 4).enPassantTarget = none ∧
    (movePiece promoState 5 4 7 4).enPassantTarget ≠ some (6, 4) := by
  refine ⟨by decide, by decide, by decide, by decide⟩

/-- C6: applying the legal kingside castle e1-g1 on `castleState`
relocates the h1 rook to f1 and sets the king's `hasMoved`, but the
relocated rook's `hasMoved` flag is still `false`: the castling branch
of `movePiece` never sets it (only the moved piece itself gets
`hasMoved := true`). -/
theorem castling_rook_hasMoved_not_set :
    isLegalMove castleState.board castleState.enPassantTarget 7 4 7 6 = true ∧
    getCell (movePiece castleState 7 4 7 6).board 7 5 = some ⟨Rook, White, false⟩ ∧
    getCell (movePiece castleState 7 4 7 6).board 7 6 = some ⟨King, White, true⟩ ∧
    getCell (movePiece castleState 7 4 7 6).board 7 7 = none := by
  refine ⟨by decide, by decide, by decide, by decide⟩

/-- C8 counterexample: `twoKingsBoard` holds two black kings.
`findKing` returns the first king in scan order, so the board and its
mirrored color-swap evaluate the in-check bonus at different kings and
the antisymmetry law fails. -/
theorem staticEvaluation_mirror_fails_with_duplicate_kings :
    staticEvaluation (mirrorSwap twoKingsBoard) ≠ -staticEvaluation twoKingsBoard := by
  decide

/-- C9 counterexample: on `aiBoard` Black's only capture is rook takes
the h4 pawn, but that pawn is defended by the white king, so the
quiescence search values the capture below a quiet rook move and the
depth-1 search selects the quiet move h8-g8 instead of the capture. -/
theorem depth1_search_skips_unique_capture :
    (getAllLegalMoves aiBoard none Black).filter
      (fun m => (getCell aiBoard m.toRow m.toCol).isSome) = [⟨0, 7, 4, 7⟩] ∧
    (minimax aiBoard none 1 (-2000000) 2000000 true).2 = some ⟨0, 7, 0, 6⟩ ∧
    (⟨0, 7, 0, 6⟩ : ChessMove) ≠ ⟨0, 7, 4, 7⟩ := by
  refine ⟨by decide, by decide, by decide⟩

theorem getCell_out_of_bounds (b : Board) (r c : Int)
    (h : ¬(0 ≤ r ∧ r < 8 ∧ 0 ≤ c ∧ c < 8)) : getCell b r c = none := by
  unfold getCell
  exact dif_neg h

theorem findKing_eq_none_of_no_king (b : Board) (color : PieceColor)
    (h : ∀ r c : Fin 8, ∀ p : Piece, b r c = some p → ¬(p.color = color ∧ p.type = King)) :
    findKing color b = none := by
  unfold findKing
  rw [List.findSome?_eq_none_iff]
  intro r _
  rw [List.findSome?_eq_none_iff]
  intro c _
  cases hc : b r c with
  | none => rfl
  | some p => simp [h r c p hc]

/-- C7: a board with no king of the given color is reported in check:
`findKing` comes back empty and `isKingInCheck` returns `true` for the
missing-king case. -/
theorem isKingInCheck_true_of_no_king (b : Board) (color : PieceColor)
    (h : ∀ r c : Fin 8, ∀ p : Piece, b r c = some p → ¬(p.color = color ∧ p.type = King)) :
    isKingInCheck color b = true := by
  unfold isKingInCheck
  rw [findKing_eq_none_of_no_king b color h]

theorem isKingInCheck_true_of_no_king_witness :
    (∀ r c : Fin 8, ∀ p : Piece, emptyBoard r c = some p →
      ¬(p.color = White ∧ p.type = King)) ∧
    isKingInCheck White emptyBoard = true := by
  have h : ∀ r c : Fin 8, ∀ p : Piece, emptyBoard r c = some p →
      ¬(p.color = White ∧ p.type = King) := by
    intro r c p hp
    exact absurd hp (by simp [emptyBoard])
  exact ⟨h, isKingInCheck_true_of_no_king emptyBoard White h⟩

/-- C2: whenever the mover's own king is in check on the simulated
board (the clone with the candidate move applied, including the
simulated castling rook relocation and en-passant pawn removal),
`isLegalMove` rejects the move. -/
theorem isLegalMove_false_of_simulated_check (b : Board) (ep : Option (Int × Int))
    (fromRow fromCol toRow toCol : Int) (p : Piece)
    (hsrc : getCell b fromRow fromCol = some p)
    (hchk : isKingInCheck p.color (simBoardOf b fromRow fromCol toRow toCol) = true) :
    isLegalMove b ep fromRow fromCol toRow toCol = false := by
  have hsim : isLegalMoveSimulated b ep fromRow fromCol toRow toCol = false := by
    unfold isLegalMoveSimulated
    simp only [hsrc, hchk, Bool.not_true]
    split <;> rfl
  unfold isLegalMove
  simp only [hsrc]
  split
  · rfl
  · cases hd : getCell b toRow toCol with
    | some dest => simp only [hsim]; split <;> rfl
    | none => exact hsim

theorem isLegalMove_false_of_simulated_check_witness :
    getCell pinBoard 6 4 = some ⟨Bishop, White, false⟩ ∧
    isKingInCheck White (simBoardOf pinBoard 6 4 5 3) = true ∧
    isLegalMove pinBoard none 6 4 5 3 = false := by
  refine ⟨by decide, by decide, ?_⟩
  exact isLegalMove_false_of_simulated_check pinBoard none 6 4 5 3
    ⟨Bishop, White, false⟩ (by decide) (by decide)

/-- C10: the search's `simulateMove` only moves the source piece to the
destination and empties the source.  Every other cell is untouched (so
no rook relocation, no en-passant removal, no promotion), and with an
empty source square the board is returned unchanged. -/
theorem simulateMove_frame (b : Board) (fromRow fromCol toRow toCol : Int) :
    (getCell b fromRow fromCol = none → simulateMove b fromRow fromCol toRow toCol = b) ∧
    (∀ p : Piece, getCell b fromRow fromCol = some p →
      (∀ r c : Int, ¬(r = toRow ∧ c = toCol) → ¬(r = fromRow ∧ c = fromCol) →
        getCell (simulateMove b fromRow fromCol toRow toCol) r c = getCell b r c) ∧
      (¬(toRow = fromRow ∧ toCol = fromCol) →
        getCell (simulateMove b fromRow fromCol toRow toCol) toRow toCol =
          if 0 ≤ toRow ∧ toRow < 8 ∧ 0 ≤ toCol ∧ toCol < 8 then some p else none) ∧
      getCell (simulateMove b fromRow fromCol toRow toCol) fromRow fromCol = none) := by
  constructor
  · intro h
    unfold simulateMove
    rw [h]
  · intro p hsrc
    have hb := getCell_eq_some_bounds hsrc
    refine ⟨?_, ?_, ?_⟩
    · intro r c h1 h2
      unfold simulateMove
      rw [hsrc, getCell_setCell_ne _ _ _ _ _ _ h2, getCell_setCell_ne _ _ _ _ _ _ h1]
    · intro hne
      unfold simulateMove
      rw [hsrc, getCell_setCell_ne _ _ _ _ _ _ hne]
      by_cases hbb : 0 ≤ toRow ∧ toRow < 8 ∧ 0 ≤ toCol ∧ toCol < 8
      · rw [getCell_setCell_same _ _ _ _ (by omega) (by omega), if_pos hbb]
      · rw [getCell_out_of_bounds _ _ _ hbb, if_neg hbb]
    · unfold simulateMove
      rw [hsrc, getCell_setCell_same _ _ _ _ (by omega) (by omega)]

theorem simulateMove_frame_witness :
    getCell pinBoard 0 4 = some ⟨Rook, Black, false⟩ ∧
    getCell (simulateMove pinBoard 6 4 5 3) 0 4 = getCell pinBoard 0 4 ∧
    getCell (simulateMove pinBoard 6 4 5 3) 5 3 = some ⟨Bishop, White, false⟩ ∧
    getCell (simulateMove pinBoard 6 4 5 3) 6 4 = none := by
  obtain ⟨-, h2⟩ := simulateMove_frame pinBoard 6 4 5 3
  obtain ⟨hf, hd, hs⟩ := h2 ⟨Bishop, White, false⟩ (by decide)
  exact ⟨by decide, hf 0 4 (by decide) (by decide), by simpa using hd (by decide), hs⟩

/-- C4 (amended): after `movePiece` the en-passant target is the
skipped-over square exactly when the moved piece was a pawn advancing
two rows and not landing on the promotion rank (a double step onto the
promotion rank promotes first, so the pawn test fails and the target is
cleared); after every other move it is `none`.  Moreover a pawn's
diagonal move into an empty square passes `isLegalMoveBasic` exactly
when that square is the current en-passant target. -/
theorem enPassant_target_lifecycle :
    (∀ (s : GameState) (fromRow fromCol toRow toCol : Int) (p : Piece),
      getCell s.board fromRow fromCol = some p →
      (movePiece s fromRow fromCol toRow toCol).enPassantTarget =
        if p.type = Pawn ∧ (toRow - fromRow).natAbs = 2 ∧
            ¬((p.color = White ∧ toRow = 0) ∨ (p.color = Black ∧ toRow = 7)) then
          some (fromRow + (toRow - fromRow) / 2, fromCol)
        else none) ∧
    (∀ (b : Board) (ep : Option (Int × Int)) (fromRow fromCol toRow toCol : Int) (p : Piece),
      p.type = Pawn → (toCol - fromCol).natAbs = 1 →
      toRow = fromRow + pawnDir p.color → getCell b toRow toCol = none →
      (isLegalMoveBasic b ep fromRow fromCol toRow toCol p = true ↔
        ep = some (toRow, toCol))) := by
  constructor
  · intro s fromRow fromCol toRow toCol p hsrc
    unfold movePiece
    have hBS : BOARD_SIZE - 1 = (7 : Int) := by decide
    simp only [hsrc, hBS]
    by_cases hp : p.type = Pawn
    · by_cases hpr : (p.color = White ∧ toRow = 0) ∨ (p.color = Black ∧ toRow = 7)
      · simp only [if_pos (And.intro hp hpr)]
        rcases hpr with h0 | h7
        · simp [hp, h0.1, h0.2]
        · simp [hp, h7.1, h7.2]
      · simp only [if_neg (show ¬(p.type = Pawn ∧
          ((p.color = White ∧ toRow = 0) ∨ (p.color = Black ∧ toRow = 7))) from
            fun hc => hpr hc.2)]
        have hA : p.color = White → ¬toRow = 0 := fun hw hz => hpr (Or.inl ⟨hw, hz⟩)
        have hB : p.color = Black → ¬toRow = 7 := fun hw hz => hpr (Or.inr ⟨hw, hz⟩)
        by_cases h2 : (toRow - fromRow).natAbs = 2
        · simp only [hp, h2]
          simp
          exact ⟨hA, hB⟩
        · simp [hp, h2]
    · simp only [if_neg (show ¬(p.type = Pawn ∧
        ((p.color = White ∧ toRow = 0) ∨ (p.color = Black ∧ toRow = 7))) from
          fun hc => hp hc.1)]
      simp [hp]
  · intro b ep fromRow fromCol toRow toCol p hp hdc hdr hempty
    constructor
    · intro hbasic
      by_contra hne
      unfold isLegalMoveBasic at hbasic
      rw [if_neg (show ¬(p.type = Pawn ∧ (toCol - fromCol).natAbs = 1 ∧
          toRow = fromRow + pawnDir p.color ∧ (getCell b toRow toCol).isNone ∧
          ep = some (toRow, toCol)) from fun hc => hne hc.2.2.2.2)] at hbasic
      simp only [hp] at hbasic
      unfold isLegalPawnMove at hbasic
      rw [if_neg (show ¬(toCol = fromCol ∧ toRow = fromRow + pawnDir p.color ∧
          (getCell b toRow toCol).isNone) from fun hc => by omega)] at hbasic
      rw [if_neg (show ¬(toCol = fromCol ∧ ¬p.hasMoved = true ∧
          toRow = fromRow + 2 * pawnDir p.color ∧
          (getCell b (fromRow + pawnDir p.color) fromCol).isNone ∧
          (getCell b toRow toCol).isNone) from fun hc => by omega)] at hbasic
      rw [if_pos (And.intro hdc hdr), hempty] at hbasic
      simp at hbasic
    · intro hep
      unfold isLegalMoveBasic
      rw [if_pos ⟨hp, hdc, hdr, by rw [hempty]; rfl, hep⟩]

theorem enPassant_target_lifecycle_witness :
    (movePiece initState 6 4 4 4).enPassantTarget = some (5, 4) ∧
    isLegalMoveBasic epBoard (some (2, 3)) 3 4 2 3 ⟨Pawn, White, true⟩ = true := by
  constructor
  · rw [enPassant_target_lifecycle.1 initState 6 4 4 4 ⟨Pawn, White, false⟩ (by decide)]
    decide
  · exact (enPassant_target_lifecycle.2 epBoard (some (2, 3)) 3 4 2 3
      ⟨Pawn, White, true⟩ rfl (by decide) (by decide) (by decide)).mpr rfl

/-- C3 (amended): a two-column king move passes `isLegalMoveBasic` only
if the king is not currently in check, the square the king passes
through and its destination are unattacked, every column the source's
emptiness loop visits is empty - on the kingside the two squares
strictly between king and rook, on the queenside only the king's
destination and crossing columns (the square next to the rook is not
checked) - and the corner square holds a piece that has never moved. -/
theorem castle_basic_necessary_conditions (b : Board) (ep : Option (Int × Int))
    (fromRow fromCol toRow toCol : Int) (p : Piece)
    (hk : p.type = King) (hdc : (toCol - fromCol).natAbs = 2) (hdr : toRow = fromRow)
    (hbasic : isLegalMoveBasic b ep fromRow fromCol toRow toCol p = true) :
    isKingInCheck p.color b = false ∧
    isSquareAttacked b fromRow (fromCol + if fromCol < toCol then 1 else -1)
      (oppositeColor p.color) = false ∧
    isSquareAttacked b toRow toCol (oppositeColor p.color) = false ∧
    (if fromCol < toCol then
      (∀ c ∈ intsFromTo (fromCol + 1) toCol, getCell b fromRow c = none) ∧
      (∃ rook, getCell b fromRow (BOARD_SIZE - 1) = some rook ∧ rook.hasMoved = false)
    else
      (∀ c ∈ intsFromTo toCol (fromCol - 1), getCell b fromRow c = none) ∧
      (∃ rook, getCell b fromRow 0 = some rook ∧ rook.hasMoved = false)) := by
  unfold isLegalMoveBasic at hbasic
  rw [if_neg (show ¬(p.type = Pawn ∧ (toCol - fromCol).natAbs = 1 ∧
      toRow = fromRow + pawnDir p.color ∧ (getCell b toRow toCol).isNone ∧
      ep = some (toRow, toCol)) from fun hc => by
        rw [hk] at hc
        exact absurd hc.1 (by decide))] at hbasic
  simp only [hk] at hbasic
  rw [if_pos (And.intro hdc hdr)] at hbasic
  simp only [castleCheck] at hbasic
  by_cases hlt : fromCol < toCol
  · simp only [if_pos hlt] at hbasic ⊢
    split at hbasic
    · exact absurd hbasic (by simp)
    · rename_i hic
      split at hbasic
      · exact absurd hbasic (by simp)
      · rename_i hat1
        split at hbasic
        · exact absurd hbasic (by simp)
        · rename_i hat2
          rw [Bool.and_eq_true] at hbasic
          obtain ⟨hall, hcorner⟩ := hbasic
          refine ⟨Bool.eq_false_iff.mpr hic, Bool.eq_false_iff.mpr hat1,
            Bool.eq_false_iff.mpr hat2, ?_, ?_⟩
          · intro c hc
            exact Option.isNone_iff_eq_none.mp ((List.all_eq_true.mp hall) c hc)
          · cases hcr : getCell b fromRow (BOARD_SIZE - 1) with
            | none => rw [hcr] at hcorner; exact absurd hcorner (by simp)
            | some rook => rw [hcr] at hcorner; exact ⟨rook, rfl, by simpa using hcorner⟩
  · simp only [if_neg hlt] at hbasic ⊢
    split at hbasic
    · exact absurd hbasic (by simp)
    · rename_i hic
      split at hbasic
      · exact absurd hbasic (by simp)
      · rename_i hat1
        split at hbasic
        · exact absurd hbasic (by simp)
        · rename_i hat2
          rw [Bool.and_eq_true] at hbasic
          obtain ⟨hall, hcorner⟩ := hbasic
          refine ⟨Bool.eq_false_iff.mpr hic, Bool.eq_false_iff.mpr hat1,
            Bool.eq_false_iff.mpr hat2, ?_, ?_⟩
          · intro c hc
            exact Option.isNone_iff_eq_none.mp ((List.all_eq_true.mp hall) c hc)
          · cases hcr : getCell b fromRow 0 with
            | none => rw [hcr] at hcorner; exact absurd hcorner (by simp)
            | some rook => rw [hcr] at hcorner; exact ⟨rook, rfl, by simpa using hcorner⟩

theorem castle_basic_necessary_conditions_witness :
    isLegalMoveBasic ksBoard none 7 4 7 6 ⟨King, White, false⟩ = true ∧
    (isKingInCheck White ksBoard = false ∧
     isSquareAttacked ksBoard 7 (4 + if (4 : Int) < 6 then 1 else -1)
       (oppositeColor White) = false ∧
     isSquareAttacked ksBoard 7 6 (oppositeColor White) = false ∧
     (if (4 : Int) < 6 then
       (∀ c ∈ intsFromTo 5 6, getCell ksBoard 7 c = none) ∧
       (∃ rook, getCell ksBoard 7 (BOARD_SIZE - 1) = some rook ∧ rook.hasMoved = false)
     else
       (∀ c ∈ intsFromTo 6 3, getCell ksBoard 7 c = none) ∧
       (∃ rook, getCell ksBoard 7 0 = some rook ∧ rook.hasMoved = false))) := by
  refine ⟨by decide, ?_⟩
  exact castle_basic_necessary_conditions ksBoard none 7 4 7 6 ⟨King, White, false⟩
    rfl (by decide) rfl (by decide)

theorem mem_insertMove (le : ChessMove → ChessMove → Bool) (m a : ChessMove)
    (l : List ChessMove) : a ∈ insertMove le m l ↔ a = m ∨ a ∈ l := by
  induction l with
  | nil => simp [insertMove]
  | cons n rest ih =>
    simp only [insertMove]
    split
    · simp [List.mem_cons]
    · simp only [List.mem_cons, ih]
      tauto

theorem mem_sortMovesBy (le : ChessMove → ChessMove → Bool) (a : ChessMove)
    (l : List ChessMove) : a ∈ sortMovesBy le l ↔ a ∈ l := by
  induction l with
  | nil => simp [sortMovesBy]
  | cons n rest ih =>
    simp only [sortMovesBy, mem_insertMove, List.mem_cons, ih]

theorem sortMovesBy_head_eq (le : ChessMove → ChessMove → Bool) (l : List ChessMove)
    (m0 : ChessMove) (hm : m0 ∈ l)
    (h1 : ∀ m ∈ l, le m0 m = true)
    (h2 : ∀ m ∈ l, m ≠ m0 → le m m0 = false) :
    (sortMovesBy le l).head? = some m0 := by
  induction l with
  | nil => exact absurd hm (List.not_mem_nil m0)
  | cons n rest ih =>
    simp only [sortMovesBy]
    by_cases hn : n = m0
    · subst hn
      cases hs : sortMovesBy le rest with
      | nil => simp [insertMove]
      | cons x xs =>
        have hx : x ∈ rest :=
          (mem_sortMovesBy le x rest).mp (hs ▸ List.mem_cons_self x xs)
        simp [insertMove, h1 x (List.mem_cons_of_mem n hx)]
    · have hm0r : m0 ∈ rest := by
        rcases List.mem_cons.mp hm with h | h
        · exact absurd h.symm hn
        · exact h
      have ih' := ih hm0r (fun m hmm => h1 m (List.mem_cons_of_mem n hmm))
        (fun m hmm => h2 m (List.mem_cons_of_mem n hmm))
      cases hs : sortMovesBy le rest with
      | nil => rw [hs] at ih'; simp at ih'
      | cons y ys =>
        rw [hs] at ih'
        simp only [List.head?_cons, Option.some_inj] at ih'
        subst ih'
        simp [insertMove, h2 n (List.mem_cons_self n rest) hn]

theorem pieceValue_ge (p : Piece) : 20 ≤ pieceValue p := by
  unfold pieceValue
  split <;> norm_num

/-- C9 (amended): when exactly one of Black's legal moves is a capture,
the capture-first ordering used at every node of `minimax` and `quiesce`
places that move first in the sorted move list; the depth-1 search then
plays it only if its quiesced evaluation beats every quiet move's, which
a defended target can prevent. -/
theorem unique_capture_ordered_first (b : Board) (ep : Option (Int × Int)) (m0 : ChessMove)
    (hcap : (getAllLegalMoves b ep Black).filter
      (fun m => (getCell b m.toRow m.toCol).isSome) = [m0]) :
    (sortMoves b true (getAllLegalMoves b ep Black)).head? = some m0 := by
  have hm0f : m0 ∈ (getAllLegalMoves b ep Black).filter
      (fun m => (getCell b m.toRow m.toCol).isSome) := by
    rw [hcap]
    exact List.mem_singleton_self m0
  obtain ⟨hm0, hm0some⟩ := List.mem_filter.mp hm0f
  have hv0 : 20 ≤ captureValue b m0 := by
    unfold captureValue
    cases hc : getCell b m0.toRow m0.toCol with
    | none => rw [hc] at hm0some; exact absurd hm0some (by simp)
    | some q => exact pieceValue_ge q
  have hvm : ∀ m ∈ getAllLegalMoves b ep Black, m ≠ m0 → captureValue b m = 0 := by
    intro m hm hne
    have hnone : getCell b m.toRow m.toCol = none := by
      cases hc : getCell b m.toRow m.toCol with
      | none => rfl
      | some q =>
        have : m ∈ (getAllLegalMoves b ep Black).filter
            (fun m => (getCell b m.toRow m.toCol).isSome) :=
          List.mem_filter.mpr ⟨hm, by rw [hc]; rfl⟩
        rw [hcap] at this
        simp at this
        exact absurd this hne
    unfold captureValue
    rw [hnone]
  unfold sortMoves
  apply sortMovesBy_head_eq
  · exact hm0
  · intro m hm
    by_cases hne : m = m0
    · subst hne
      simp
    · simp only [eq_self_iff_true, if_true, decide_eq_true_eq]
      rw [hvm m hm hne]
      omega
  · intro m hm hne
    simp only [eq_self_iff_true, if_true, decide_eq_false_iff_not]
    rw [hvm m hm hne]
    omega

theorem unique_capture_ordered_first_witness :
    (getAllLegalMoves aiBoard none Black).filter
      (fun m => (getCell aiBoard m.toRow m.toCol).isSome) = [⟨0, 7, 4, 7⟩] ∧
    (sortMoves aiBoard true (getAllLegalMoves aiBoard none Black)).head? =
      some ⟨0, 7, 4, 7⟩ := by
  refine ⟨by decide, ?_⟩
  exact unique_capture_ordered_first aiBoard none ⟨0, 7, 4, 7⟩ (by decide)

theorem list_all_congr {α : Type} {l : List α} {f g : α → Bool}
    (h : ∀ x ∈ l, f x = g x) : l.all f = l.all g := by
  induction l with
  | nil => rfl
  | cons a t ih =>
    simp only [List.all_cons]
    rw [h a (List.mem_cons_self a t), ih (fun x hx => h x (List.mem_cons_of_mem a hx))]

theorem list_any_congr {α : Type} {l : List α} {f g : α → Bool}
    (h : ∀ x ∈ l, f x = g x) : l.any f = l.any g := by
  induction l with
  | nil => rfl
  | cons a t ih =>
    simp only [List.any_cons]
    rw [h a (List.mem_cons_self a t), ih (fun x hx => h x (List.mem_cons_of_mem a hx))]

theorem list_findSome?_congr {α β : Type} {l : List α} {f g : α → Option β}
    (h : ∀ x ∈ l, f x = g x) : l.findSome? f = l.findSome? g := by
  induction l with
  | nil => rfl
  | cons a t ih =>
    simp only [List.findSome?_cons]
    rw [h a (List.mem_cons_self a t), ih (fun x hx => h x (List.mem_cons_of_mem a hx))]

theorem cell_shape_cases {b b' : Board} (hsh : sameShape b b') (r c : Fin 8) :
    (b r c = none ∧ b' r c = none) ∨
    (∃ p p', b r c = some p ∧ b' r c = some p' ∧ p.type = p'.type ∧ p.color = p'.color) := by
  have h := hsh r c
  cases h1 : b r c with
  | none =>
    cases h2 : b' r c with
    | none => exact Or.inl ⟨rfl, rfl⟩
    | some p' => rw [h1, h2] at h; exact absurd h (by simp)
  | some p =>
    cases h2 : b' r c with
    | none => rw [h1, h2] at h; exact absurd h (by simp)
    | some p' =>
      rw [h1, h2] at h
      simp only [Option.map_some', Option.some_inj, pieceShape, Prod.mk.injEq] at h
      exact Or.inr ⟨p, p', rfl, rfl, h.1, h.2⟩

theorem getCell_shape {b b' : Board} (hsh : sameShape b b') (r c : Int) :
    (getCell b r c).map pieceShape = (getCell b' r c).map pieceShape := by
  unfold getCell
  split
  · exact hsh _ _
  · rfl

theorem getCell_isNone_shape {b b' : Board} (hsh : sameShape b b') (r c : Int) :
    (getCell b r c).isNone = (getCell b' r c).isNone := by
  have h := getCell_shape hsh r c
  cases h1 : getCell b r c <;> cases h2 : getCell b' r c <;>
    rw [h1, h2] at h <;> simp at h ⊢

theorem isLegalRookMove_shape {b b' : Board} (hsh : sameShape b b')
    (fromRow fromCol toRow toCol : Int) :
    isLegalRookMove b fromRow fromCol toRow toCol =
    isLegalRookMove b' fromRow fromCol toRow toCol := by
  have hocc := getCell_isNone_shape hsh
  unfold isLegalRookMove
  simp only [hocc]

theorem isLegalBishopMove_shape {b b' : Board} (hsh : sameShape b b')
    (fromRow fromCol toRow toCol : Int) :
    isLegalBishopMove b fromRow fromCol toRow toCol =
    isLegalBishopMove b' fromRow fromCol toRow toCol := by
  have hocc := getCell_isNone_shape hsh
  unfold isLegalBishopMove
  simp only [hocc]

theorem isLegalQueenMove_shape {b b' : Board} (hsh : sameShape b b')
    (fromRow fromCol toRow toCol : Int) :
    isLegalQueenMove b fromRow fromCol toRow toCol =
    isLegalQueenMove b' fromRow fromCol toRow toCol := by
  unfold isLegalQueenMove
  rw [isLegalRookMove_shape hsh, isLegalBishopMove_shape hsh]

theorem canPieceAttack_shape {b b' : Board} (hsh : sameShape b b')
    (fromRow fromCol toRow toCol : Int) (p p' : Piece)
    (ht : p.type = p'.type) (hc : p.color = p'.color) :
    canPieceAttack b fromRow fromCol toRow toCol p =
    canPieceAttack b' fromRow fromCol toRow toCol p' := by
  unfold canPieceAttack
  rw [ht, hc]
  cases hpt : p'.type with
  | Pawn => rfl
  | Rook => exact isLegalRookMove_shape hsh fromRow fromCol toRow toCol
  | Knight => rfl
  | Bishop => exact isLegalBishopMove_shape hsh fromRow fromCol toRow toCol
  | Queen => exact isLegalQueenMove_shape hsh fromRow fromCol toRow toCol
  | King => rfl

theorem isSquareAttacked_shape {b b' : Board} (hsh : sameShape b b')
    (row col : Int) (byColor : PieceColor) :
    isSquareAttacked b row col byColor = isSquareAttacked b' row col byColor := by
  unfold isSquareAttacked
  apply list_any_congr
  intro r _
  apply list_any_congr
  intro c _
  rcases cell_shape_cases hsh r c with ⟨h1, h2⟩ | ⟨p, p', h1, h2, ht, hc⟩
  · rw [h1, h2]
  · simp only [h1, h2]
    rw [hc, ht]
    by_cases hp : p'.type = Pawn
    · rw [if_pos hp, if_pos hp]
    · rw [if_neg hp, if_neg hp, canPieceAttack_shape hsh (r : Int) (c : Int) row col p p' ht hc]

theorem findKing_shape {b b' : Board} (hsh : sameShape b b') (color : PieceColor) :
    findKing color b = findKing color b' := by
  unfold findKing
  apply list_findSome?_congr
  intro r _
  apply list_findSome?_congr
  intro c _
  rcases cell_shape_cases hsh r c with ⟨h1, h2⟩ | ⟨p, p', h1, h2, ht, hc⟩
  · rw [h1, h2]
  · simp only [h1, h2]
    rw [ht, hc]

theorem isKingInCheck_shape {b b' : Board} (hsh : sameShape b b') (color : PieceColor) :
    isKingInCheck color b = isKingInCheck color b' := by
  unfold isKingInCheck
  rw [findKing_shape hsh color]
  cases h : findKing color b' with
  | none => rfl
  | some kingPos => exact isSquareAttacked_shape hsh _ _ _

/-- C5: the castling legality check never reads the castling king's own
`hasMoved` flag: replacing that flag with any value `m'` on the king's
square leaves `castleCheck` unchanged; only the corner piece's
`hasMoved` is consulted. -/
theorem castling_ignores_king_hasMoved (b : Board)
    (fromRow fromCol toRow toCol : Int) (king : Piece) (m' : Bool)
    (hk : king.type = King)
    (hsrc : getCell b fromRow fromCol = some king)
    (hdc : (toCol - fromCol).natAbs = 2)
    (htc : 0 ≤ toCol ∧ toCol < 8) :
    castleCheck (setCell b fromRow fromCol (some { king with hasMoved := m' }))
      king.color fromRow fromCol toRow toCol =
    castleCheck b king.color fromRow fromCol toRow toCol := by
  have hb := getCell_eq_some_bounds hsrc
  have hfr : fromRow.toNat < 8 := by omega
  have hfc : fromCol.toNat < 8 := by omega
  have hcell : b ⟨fromRow.toNat, hfr⟩ ⟨fromCol.toNat, hfc⟩ = some king := by
    unfold getCell at hsrc
    rwa [dif_pos (by omega : 0 ≤ fromRow ∧ fromRow < 8 ∧ 0 ≤ fromCol ∧ fromCol < 8)] at hsrc
  have hsh : sameShape b (setCell b fromRow fromCol (some { king with hasMoved := m' })) := by
    intro r c
    unfold setCell
    split
    · rename_i hrc
      have hr : r = (⟨fromRow.toNat, hfr⟩ : Fin 8) := by
        apply Fin.ext
        have h1 := hrc.1
        simp only [Fin.val_mk]
        omega
      have hcc : c = (⟨fromCol.toNat, hfc⟩ : Fin 8) := by
        apply Fin.ext
        have h2 := hrc.2
        simp only [Fin.val_mk]
        omega
      subst hr
      subst hcc
      rw [hcell]
      rfl
    · rfl
  simp only [castleCheck]
  simp only [isKingInCheck_shape hsh, isSquareAttacked_shape hsh, getCell_isNone_shape hsh]
  by_cases hlt : fromCol < toCol
  · simp only [if_pos hlt]
    rw [getCell_setCell_ne b fromRow fromCol fromRow (BOARD_SIZE - 1)
      (some { king with hasMoved := m' }) (by
        intro hcont
        have h2 := hcont.2
        simp only [BOARD_SIZE] at h2
        omega)]
  · simp only [if_neg hlt]
    rw [getCell_setCell_ne b fromRow fromCol fromRow 0
      (some { king with hasMoved := m' }) (by
        intro hcont
        omega)]

theorem castling_ignores_king_hasMoved_witness :
    castleCheck (setCell ksBoard 7 4 (some ⟨King, White, true⟩)) White 7 4 7 6 =
      castleCheck ksBoard White 7 4 7 6 ∧
    castleCheck ksBoard White 7 4 7 6 = true := by
  refine ⟨?_, by decide⟩
  exact castling_ignores_king_hasMoved ksBoard 7 4 7 6 ⟨King, White, false⟩ true
    rfl (by decide) (by decide) (by omega)

theorem opposite_opposite (c : PieceColor) : oppositeColor (oppositeColor c) = c := by
  cases c <;> rfl

theorem getCell_mirrorSwap (b : Board) (r c : Int) :
    getCell (mirrorSwap b) r c = (getCell b (7 - r) c).map swapColor := by
  unfold getCell
  by_cases h : 0 ≤ r ∧ r < 8 ∧ 0 ≤ c ∧ c < 8
  · rw [dif_pos h, dif_pos (by omega : 0 ≤ 7 - r ∧ 7 - r < 8 ∧ 0 ≤ c ∧ c < 8)]
    unfold mirrorSwap
    have hrev : Fin.rev (⟨r.toNat, by omega⟩ : Fin 8) = (⟨(7 - r).toNat, by omega⟩ : Fin 8) := by
      apply Fin.ext
      simp only [Fin.val_rev, Fin.val_mk]
      omega
    rw [hrev]
  · rw [dif_neg h, dif_neg (by omega : ¬(0 ≤ 7 - r ∧ 7 - r < 8 ∧ 0 ≤ c ∧ c < 8))]
    rfl

theorem getCell_mirrorSwap_isNone (b : Board) (r c : Int) :
    (getCell (mirrorSwap b) r c).isNone = (getCell b (7 - r) c).isNone := by
  rw [getCell_mirrorSwap]
  cases getCell b (7 - r) c <;> rfl

theorem isLegalRookMove_mirror (b : Board) (fromRow fromCol toRow toCol : Int) :
    isLegalRookMove (mirrorSwap b) (7 - fromRow) fromCol (7 - toRow) toCol =
    isLegalRookMove b fromRow fromCol toRow toCol := by
  unfold isLegalRookMove
  by_cases h1 : fromRow = toRow
  · rw [if_neg (by omega : ¬(7 - fromRow ≠ 7 - toRow ∧ fromCol ≠ toCol)),
      if_neg (by omega : ¬(fromRow ≠ toRow ∧ fromCol ≠ toCol)),
      if_pos (by omega : 7 - fromRow = 7 - toRow), if_pos h1]
    apply list_all_congr
    intro i _
    rw [getCell_mirrorSwap_isNone]
    have harg : 7 - (7 - fromRow) = fromRow := by omega
    rw [harg]
  · by_cases h2 : fromCol = toCol
    · rw [if_neg (by omega : ¬(7 - fromRow ≠ 7 - toRow ∧ fromCol ≠ toCol)),
        if_neg (by omega : ¬(fromRow ≠ toRow ∧ fromCol ≠ toCol)),
        if_neg (by omega : ¬(7 - fromRow = 7 - toRow)), if_neg h1]
      by_cases h3 : fromRow < toRow
      · rw [if_pos h3, if_neg (by omega : ¬(7 - fromRow < 7 - toRow))]
        have hcnt : (7 - toRow - (7 - fromRow)) * (-1) - 1 = (toRow - fromRow) * 1 - 1 := by
          ring
        dsimp only []
        rw [hcnt]
        apply list_all_congr
        intro i _
        rw [getCell_mirrorSwap_isNone]
        have harg : 7 - (7 - fromRow + ((i : Int) + 1) * (-1)) = fromRow + ((i : Int) + 1) * 1 := by
          ring
        rw [harg]
      · rw [if_neg h3, if_pos (by omega : 7 - fromRow < 7 - toRow)]
        have hcnt : (7 - toRow - (7 - fromRow)) * 1 - 1 = (toRow - fromRow) * (-1) - 1 := by
          ring
        dsimp only []
        rw [hcnt]
        apply list_all_congr
        intro i _
        rw [getCell_mirrorSwap_isNone]
        have harg : 7 - (7 - fromRow + ((i : Int) + 1) * 1) = fromRow + ((i : Int) + 1) * (-1) := by
          ring
        rw [harg]
    · rw [if_pos (by omega : 7 - fromRow ≠ 7 - toRow ∧ fromCol ≠ toCol),
        if_pos (And.intro h1 h2)]

theorem isLegalBishopMove_mirror (b : Board) (fromRow fromCol toRow toCol : Int) :
    isLegalBishopMove (mirrorSwap b) (7 - fromRow) fromCol (7 - toRow) toCol =
    isLegalBishopMove b fromRow fromCol toRow toCol := by
  unfold isLegalBishopMove
  have habs : (7 - toRow - (7 - fromRow)).natAbs = (toRow - fromRow).natAbs := by omega
  by_cases h0 : (toRow - fromRow).natAbs = (toCol - fromCol).natAbs
  · rw [if_neg (by omega : ¬(7 - toRow - (7 - fromRow)).natAbs ≠ (toCol - fromCol).natAbs),
      if_neg (by omega : ¬(toRow - fromRow).natAbs ≠ (toCol - fromCol).natAbs)]
    by_cases h1 : fromRow = toRow
    · rw [if_pos (by omega : 7 - fromRow = 7 - toRow), if_pos h1]
    · rw [if_neg (by omega : ¬(7 - fromRow = 7 - toRow)), if_neg h1]
      by_cases h3 : fromRow < toRow
      · rw [if_pos h3, if_neg (by omega : ¬(7 - fromRow < 7 - toRow))]
        have hcnt : (7 - toRow - (7 - fromRow)) * (-1) - 1 = (toRow - fromRow) * 1 - 1 := by
          ring
        dsimp only []
        rw [hcnt]
        apply list_all_congr
        intro i _
        rw [getCell_mirrorSwap_isNone]
        have harg : 7 - (7 - fromRow + ((i : Int) + 1) * (-1)) = fromRow + ((i : Int) + 1) * 1 := by
          ring
        rw [harg]
      · rw [if_neg h3, if_pos (by omega : 7 - fromRow < 7 - toRow)]
        have hcnt : (7 - toRow - (7 - fromRow)) * 1 - 1 = (toRow - fromRow) * (-1) - 1 := by
          ring
        dsimp only []
        rw [hcnt]
        apply list_all_congr
        intro i _
        rw [getCell_mirrorSwap_isNone]
        have harg : 7 - (7 - fromRow + ((i : Int) + 1) * 1) = fromRow + ((i : Int) + 1) * (-1) := by
          ring
        rw [harg]
  · rw [if_pos (by omega : (7 - toRow - (7 - fromRow)).natAbs ≠ (toCol - fromCol).natAbs),
      if_pos h0]

theorem isLegalQueenMove_mirror (b : Board) (fromRow fromCol toRow toCol : Int) :
    isLegalQueenMove (mirrorSwap b) (7 - fromRow) fromCol (7 - toRow) toCol =
    isLegalQueenMove b fromRow fromCol toRow toCol := by
  unfold isLegalQueenMove
  rw [isLegalRookMove_mirror, isLegalBishopMove_mirror]

theorem swapColor_type (p : Piece) : (swapColor p).type = p.type := rfl

theorem pieceValue_swap (p : Piece) : pieceValue (swapColor p) = pieceValue p := rfl

theorem pawnDir_swap (p : Piece) : pawnDir (swapColor p).color = -pawnDir p.color := by
  cases hc : p.color <;> simp [swapColor, oppositeColor, hc, pawnDir]

theorem canPieceAttack_mirror (b : Board) (fromRow fromCol toRow toCol : Int) (p : Piece) :
    canPieceAttack (mirrorSwap b) (7 - fromRow) fromCol (7 - toRow) toCol (swapColor p) =
    canPieceAttack b fromRow fromCol toRow toCol p := by
  unfold canPieceAttack
  rw [swapColor_type]
  cases hpt : p.type with
  | Pawn =>
    rw [pawnDir_swap]
    rw [decide_eq_decide]
    constructor
    · rintro ⟨ha, hb2⟩
      exact ⟨ha, by omega⟩
    · rintro ⟨ha, hb2⟩
      exact ⟨ha, by omega⟩
  | Rook => exact isLegalRookMove_mirror b fromRow fromCol toRow toCol
  | Knight =>
    unfold isLegalKnightMove
    rw [decide_eq_decide]
    constructor <;> intro h <;> rcases h with ⟨ha, hb2⟩ | ⟨ha, hb2⟩
    · exact Or.inl ⟨by omega, hb2⟩
    · exact Or.inr ⟨by omega, hb2⟩
    · exact Or.inl ⟨by omega, hb2⟩
    · exact Or.inr ⟨by omega, hb2⟩
  | Bishop => exact isLegalBishopMove_mirror b fromRow fromCol toRow toCol
  | Queen => exact isLegalQueenMove_mirror b fromRow fromCol toRow toCol
  | King =>
    rw [decide_eq_decide]
    constructor <;> rintro ⟨ha, hb2⟩ <;> exact ⟨by omega, hb2⟩

theorem list_any_finRange_rev (f g : Fin 8 → Bool) (h : ∀ r, f (Fin.rev r) = g r) :
    (List.finRange 8).any f = (List.finRange 8).any g := by
  rw [Bool.eq_iff_iff]
  simp only [List.any_eq_true]
  constructor
  · rintro ⟨r, -, hr⟩
    refine ⟨Fin.rev r, List.mem_finRange _, ?_⟩
    rw [← h (Fin.rev r), Fin.rev_rev]
    exact hr
  · rintro ⟨r, -, hr⟩
    refine ⟨Fin.rev r, List.mem_finRange _, ?_⟩
    rw [h r]
    exact hr

theorem fin_rev_int (r : Fin 8) : ((Fin.rev r : Fin 8) : Int) = 7 - (r : Int) := by
  simp only [Fin.val_rev]
  omega

theorem swapColor_color_eq (p : Piece) (byColor : PieceColor) :
    ((swapColor p).color = oppositeColor byColor) = (p.color = byColor) := by
  cases hp : p.color <;> cases hb : byColor <;>
    simp [swapColor, oppositeColor, hp, hb]

theorem isSquareAttacked_mirror (b : Board) (row col : Int) (byColor : PieceColor) :
    isSquareAttacked (mirrorSwap b) (7 - row) col (oppositeColor byColor) =
    isSquareAttacked b row col byColor := by
  unfold isSquareAttacked
  apply list_any_finRange_rev
  intro r
  apply list_any_congr
  intro c _
  have hcell : mirrorSwap b (Fin.rev r) c = (b r c).map swapColor := by
    unfold mirrorSwap
    rw [Fin.rev_rev]
  rw [hcell]
  cases hbc : b r c with
  | none => rfl
  | some p =>
    simp only [Option.map_some']
    have hcol : decide ((swapColor p).color = oppositeColor byColor) =
        decide (p.color = byColor) := by
      rw [decide_eq_decide]
      cases hp : p.color <;> cases hb : byColor <;>
        simp [swapColor, oppositeColor, hp, hb]
    rw [hcol, swapColor_type]
    by_cases hp : p.type = Pawn
    · rw [if_pos hp, if_pos hp]
      congr 1
      rw [decide_eq_decide, pawnDir_swap, fin_rev_int]
      constructor
      · rintro ⟨h1, h2⟩
        exact ⟨by omega, h2⟩
      · rintro ⟨h1, h2⟩
        exact ⟨by omega, h2⟩
    · rw [if_neg hp, if_neg hp]
      congr 1
      rw [fin_rev_int]
      exact canPieceAttack_mirror b (r : Int) (c : Int) row col p

theorem findKing_none_no_king {b : Board} {color : PieceColor}
    (h : findKing color b = none) :
    ∀ r c : Fin 8, ∀ p : Piece, b r c = some p → ¬(p.color = color ∧ p.type = King) := by
  unfold findKing at h
  rw [List.findSome?_eq_none_iff] at h
  intro r c p hp hck
  have h1 := h r (List.mem_finRange r)
  rw [List.findSome?_eq_none_iff] at h1
  have h2 := h1 c (List.mem_finRange c)
  simp only [hp] at h2
  simp only [if_pos hck] at h2
  exact Option.noConfusion h2

theorem findKing_some_spec {b : Board} {color : PieceColor} {pos : Int × Int}
    (h : findKing color b = some pos) :
    ∃ (r c : Fin 8) (p : Piece), pos = ((r : Int), (c : Int)) ∧ b r c = some p ∧
      p.color = color ∧ p.type = King := by
  unfold findKing at h
  obtain ⟨r, -, hr⟩ := List.exists_of_findSome?_eq_some h
  obtain ⟨c, -, hc⟩ := List.exists_of_findSome?_eq_some hr
  cases hbc : b r c with
  | none => rw [hbc] at hc; exact Option.noConfusion hc
  | some p =>
    simp only [hbc] at hc
    by_cases hck : p.color = color ∧ p.type = King
    · rw [if_pos hck] at hc
      refine ⟨r, c, p, ?_, hbc, hck.1, hck.2⟩
      exact (Option.some_inj.mp hc).symm
    · rw [if_neg hck] at hc
      exact Option.noConfusion hc

theorem mirrorSwap_cell (b : Board) (r c : Fin 8) :
    mirrorSwap b r c = (b (Fin.rev r) c).map swapColor := rfl

theorem isKingInCheck_mirror (b : Board)
    (hu : ∀ (color : PieceColor) (r c r' c' : Fin 8),
      ((b r c).any fun p => decide (p.color = color) && decide (p.type = King)) = true →
      ((b r' c').any fun p => decide (p.color = color) && decide (p.type = King)) = true →
      r = r' ∧ c = c')
    (color : PieceColor) :
    isKingInCheck (oppositeColor color) (mirrorSwap b) = isKingInCheck color b := by
  unfold isKingInCheck
  cases hfk : findKing color b with
  | none =>
    have hnone : findKing (oppositeColor color) (mirrorSwap b) = none := by
      apply findKing_eq_none_of_no_king
      intro r c p hp hck
      rw [mirrorSwap_cell] at hp
      cases hbc : b (Fin.rev r) c with
      | none => rw [hbc] at hp; exact Option.noConfusion hp
      | some q =>
        rw [hbc] at hp
        simp only [Option.map_some', Option.some_inj] at hp
        apply findKing_none_no_king hfk (Fin.rev r) c q hbc
        constructor
        · have h1 := hck.1
          rw [← hp] at h1
          cases hqc : q.color <;> cases hcc : color <;>
            simp [swapColor, oppositeColor, hqc, hcc] at h1 ⊢
        · have h2 := hck.2
          rw [← hp] at h2
          exact h2
    rw [hnone]
  | some pos =>
    obtain ⟨r, c, q, hpos, hcell, hqcol, hqty⟩ := findKing_some_spec hfk
    have hking' : mirrorSwap b (Fin.rev r) c = some (swapColor q) := by
      rw [mirrorSwap_cell, Fin.rev_rev, hcell]
      rfl
    have hswcol : (swapColor q).color = oppositeColor color := by
      rw [show (swapColor q).color = oppositeColor q.color from rfl, hqcol]
    have hfk' : findKing (oppositeColor color) (mirrorSwap b) =
        some ((((Fin.rev r : Fin 8) : Int)), ((c : Fin 8) : Int)) := by
      cases hfk2 : findKing (oppositeColor color) (mirrorSwap b) with
      | none =>
        exact absurd ⟨hswcol, hqty⟩
          (findKing_none_no_king hfk2 (Fin.rev r) c (swapColor q) hking')
      | some pos' =>
        obtain ⟨r', c', q', hpos', hcell', hq'col, hq'ty⟩ := findKing_some_spec hfk2
        rw [mirrorSwap_cell] at hcell'
        cases hbc : b (Fin.rev r') c' with
        | none => rw [hbc] at hcell'; exact Option.noConfusion hcell'
        | some q0 =>
          rw [hbc] at hcell'
          simp only [Option.map_some', Option.some_inj] at hcell'
          have hq0col : q0.color = color := by
            rw [← hcell'] at hq'col
            cases hqc : q0.color <;> cases hcc : color <;>
              simp [swapColor, oppositeColor, hqc, hcc] at hq'col ⊢
          have hq0ty : q0.type = King := by
            rw [← hcell'] at hq'ty
            exact hq'ty
          obtain ⟨hr, hc⟩ :=
            hu color (Fin.rev r') c' r c
              (by rw [hbc]; simp [Option.any, hq0col, hq0ty])
              (by rw [hcell]; simp [Option.any, hqcol, hqty])
          rw [hpos']
          have hrr : r' = Fin.rev r := by
            rw [← hr, Fin.rev_rev]
          rw [hrr, hc]
    simp only [hfk', hpos]
    rw [fin_rev_int r]
    exact isSquareAttacked_mirror b (r : Int) (c : Int) (oppositeColor color)

theorem tableAt_symm (t : PieceType) (r c : Fin 8) :
    tableAt t r (Fin.rev c) = tableAt t r c := by
  revert r c
  cases t <;> decide

theorem swapColor_color (p : Piece) : (swapColor p).color = oppositeColor p.color := rfl

theorem getPieceSquareBonus_swap (p : Piece) (r c : Fin 8) :
    getPieceSquareBonus (swapColor p) r c = getPieceSquareBonus p (Fin.rev r) c := by
  unfold getPieceSquareBonus
  rw [swapColor_type, swapColor_color]
  cases hc : p.color with
  | White =>
    simp only [if_pos (show oppositeColor White = Black from rfl),
      if_neg (show ¬(White = Black) from by decide)]
    rw [Fin.rev_rev, tableAt_symm]
  | Black =>
    simp only [if_neg (show ¬(oppositeColor Black = Black) from by decide),
      eq_self_iff_true, if_true]
    rw [tableAt_symm]

theorem cellScore_mirror (b : Board) (r c : Fin 8) :
    cellScore (mirrorSwap b) r c = -cellScore b (Fin.rev r) c := by
  unfold cellScore
  rw [mirrorSwap_cell]
  cases hbc : b (Fin.rev r) c with
  | none => simp
  | some p =>
    simp only [Option.map_some']
    rw [pieceValue_swap, getPieceSquareBonus_swap, swapColor_color]
    cases hc : p.color with
    | White =>
      simp only [if_pos (show oppositeColor White = Black from rfl),
        if_neg (show ¬(White = Black) from by decide)]
      ring
    | Black =>
      simp only [if_neg (show ¬(oppositeColor Black = Black) from by decide),
        eq_self_iff_true, if_true]
      try ring

theorem sum_fin8_rev {M : Type} [AddCommMonoid M] (f : Fin 8 → M) :
    ∑ r : Fin 8, f (Fin.rev r) = ∑ r : Fin 8, f r :=
  Fintype.sum_bijective Fin.rev (Fin.rev_involutive.bijective) _ _ (fun _ => rfl)

theorem cellSum_mirror (b : Board) :
    ∑ r : Fin 8, ∑ c : Fin 8, cellScore (mirrorSwap b) r c =
      -∑ r : Fin 8, ∑ c : Fin 8, cellScore b r c := by
  have h1 : ∀ r : Fin 8, ∑ c : Fin 8, cellScore (mirrorSwap b) r c =
      -∑ c : Fin 8, cellScore b (Fin.rev r) c := by
    intro r
    rw [← Finset.sum_neg_distrib]
    exact Finset.sum_congr rfl (fun c _ => cellScore_mirror b r c)
  calc ∑ r : Fin 8, ∑ c : Fin 8, cellScore (mirrorSwap b) r c
      = ∑ r : Fin 8, -∑ c : Fin 8, cellScore b (Fin.rev r) c :=
        Finset.sum_congr rfl (fun r _ => h1 r)
    _ = -∑ r : Fin 8, ∑ c : Fin 8, cellScore b (Fin.rev r) c := by
        rw [← Finset.sum_neg_distrib]
    _ = -∑ r : Fin 8, ∑ c : Fin 8, cellScore b r c := by
        rw [sum_fin8_rev (fun r => ∑ c : Fin 8, cellScore b r c)]

theorem bishopCount_mirror (b : Board) (color : PieceColor) :
    bishopCount (mirrorSwap b) color = bishopCount b (oppositeColor color) := by
  unfold bishopCount
  trans (∑ r : Fin 8, ∑ c : Fin 8,
      (match b (Fin.rev r) c with
       | some piece => if piece.color = oppositeColor color ∧ piece.type = Bishop then 1 else 0
       | none => 0))
  · apply Finset.sum_congr rfl
    intro r _
    apply Finset.sum_congr rfl
    intro c _
    rw [mirrorSwap_cell]
    cases hbc : b (Fin.rev r) c with
    | none => rfl
    | some p =>
      simp only [Option.map_some']
      have hiff : ((swapColor p).color = color ∧ (swapColor p).type = Bishop) ↔
          (p.color = oppositeColor color ∧ p.type = Bishop) := by
        rw [swapColor_type, swapColor_color]
        cases hp : p.color <;> cases hcc : color <;>
          simp [oppositeColor]
      by_cases hcase : p.color = oppositeColor color ∧ p.type = Bishop
      · rw [if_pos (hiff.mpr hcase), if_pos hcase]
      · rw [if_neg (fun hcon => hcase (hiff.mp hcon)), if_neg hcase]
  · exact sum_fin8_rev (fun r => ∑ c : Fin 8,
      (match b r c with
       | some piece => if piece.color = oppositeColor color ∧ piece.type = Bishop then 1 else 0
       | none => 0))

/-- C8 (amended): on boards with at most one king of each color,
`staticEvaluation` is antisymmetric under swapping all piece colors and
mirroring the board vertically.  (With duplicated kings `findKing`'s
first-match scan can pick non-mirrored kings and the in-check bonuses
desynchronise.) -/
theorem staticEvaluation_mirror_antisymm (b : Board)
    (hu : ∀ (color : PieceColor) (r c r' c' : Fin 8),
      ((b r c).any fun p => decide (p.color = color) && decide (p.type = King)) = true →
      ((b r' c').any fun p => decide (p.color = color) && decide (p.type = King)) = true →
      r = r' ∧ c = c') :
    staticEvaluation (mirrorSwap b) = -staticEvaluation b := by
  unfold staticEvaluation
  rw [cellSum_mirror b, bishopCount_mirror b White, bishopCount_mirror b Black]
  rw [show oppositeColor White = Black from rfl, show oppositeColor Black = White from rfl]
  rw [show isKingInCheck White (mirrorSwap b) = isKingInCheck Black b from
    isKingInCheck_mirror b hu Black]
  rw [show isKingInCheck Black (mirrorSwap b) = isKingInCheck White b from
    isKingInCheck_mirror b hu White]
  by_cases hW : 2 ≤ bishopCount b White <;> by_cases hB : 2 ≤ bishopCount b Black <;>
    by_cases hCW : isKingInCheck White b = true <;>
      by_cases hCB : isKingInCheck Black b = true <;>
        simp [hW, hB, hCW, hCB] <;> ring

theorem staticEvaluation_mirror_antisymm_witness :
    (∀ (color : PieceColor) (r c r' c' : Fin 8),
      ((initBoard r c).any fun p => decide (p.color = color) && decide (p.type = King)) = true →
      ((initBoard r' c').any fun p => decide (p.color = color) && decide (p.type = King)) = true →
      r = r' ∧ c = c') ∧
    staticEvaluation (mirrorSwap initBoard) = -staticEvaluation initBoard := by
  refine ⟨by decide, ?_⟩
  exact staticEvaluation_mirror_antisymm initBoard (by decide)
